import Mathlib

set_option maxRecDepth 4000

/-
  Shallow embedding of the CHIP-8 interpreter core in src/src/cpu.rs
  (struct CPU and its impl).  Machine integers are modelled as Nat with
  explicit reductions: u8 cells are reduced mod 256 at read sites (the
  Rust types `Vec<u8>` / `[u8; 0x10]` guarantee this invariant), u16
  arithmetic wraps mod 65536 (release-mode wrapping semantics), and the
  bus mask `address & 0xFFF` is written `address % 4096`.  Fallible Vec
  indexing (which panics in Rust when out of range) is modelled with
  Option / an explicit StepResult constructor.  The pixel `phase` field
  is `f32` in the source; it is modelled as an exact rational, which is
  faithful for the exact constants 0.0 / 1.0 stored by the draw routine
  (no verified statement below observes the inexact 0.1 decay tick).
-/

namespace Chip8

/-- One screen pixel (struct Pixel, cpu.rs lines 45-53): an on/off bit plus
an analog fade phase. -/
structure Pixel where
  lit : Bool
  phase : ℚ
deriving DecidableEq, Repr

/-- Rust `Default` for Pixel: `lit = false`, `phase = 0.0`. -/
instance : Inhabited Pixel := ⟨⟨false, 0⟩⟩

/-- The interpreter state (struct CPU, cpu.rs lines 55-95).  `timer_instant`
is `Option<Instant>` in the source; only its presence matters for the step
semantics (the elapsed nanoseconds are a step input), so it is a Bool. -/
structure CPU where
  ram : List Nat
  screen : List Pixel
  framebuffer : List Nat
  v : List Nat
  i : Nat
  pc : Nat
  sp : Nat
  timer_elapsed : Nat
  timer_instant : Bool
  dt : Nat
  st : Nat
deriving DecidableEq, Repr

/-- The 80 font bytes written to ram[0x00]..ram[0x4F] by `reset`
(cpu.rs lines 124-217), in address order. -/
def FONT : List Nat :=
  [0xF0, 0x90, 0x90, 0x90, 0xF0,
   0x20, 0x60, 0x20, 0x20, 0x70,
   0xF0, 0x10, 0xF0, 0x80, 0xF0,
   0xF0, 0x10, 0xF0, 0x10, 0xF0,
   0x90, 0x90, 0xF0, 0x10, 0x10,
   0xF0, 0x80, 0xF0, 0x10, 0xF0,
   0xF0, 0x80, 0xF0, 0x90, 0xF0,
   0xF0, 0x10, 0x20, 0x40, 0x40,
   0xF0, 0x90, 0xF0, 0x90, 0xF0,
   0xF0, 0x90, 0xF0, 0x10, 0xF0,
   0xF0, 0x90, 0xF0, 0x90, 0x90,
   0xE0, 0x90, 0xE0, 0x90, 0xE0,
   0xF0, 0x80, 0x80, 0x80, 0xF0,
   0xE0, 0x90, 0x90, 0x90, 0xE0,
   0xF0, 0x80, 0xF0, 0x80, 0xF0,
   0xF0, 0x80, 0xF0, 0x80, 0x80]

/-- `CPU::reset` (cpu.rs lines 105-218): zero the registers and timers,
position pc at 0x200, resize the screen to 64*32 default pixels and the
frame buffer to 64*32*3 zero bytes, drop the timer reference, and write
the font table at ram[0x00..0x4F]. -/
def reset (cpu : CPU) : CPU :=
  { cpu with
    v := List.replicate 16 0
    i := 0
    sp := 0
    pc := 0x200
    dt := 0
    st := 0
    screen := List.replicate (64 * 32) default
    framebuffer := List.replicate (64 * 32 * 3) 0
    timer_elapsed := 0
    timer_instant := false
    ram := (List.range 80).foldl (fun r k => r.set k (FONT.getD k 0)) cpu.ram }

/-- `CPU::write` (cpu.rs lines 244-246): `self.ram[(address & 0xFFF) as usize]
= value`.  The mask `& 0xFFF` is `% 4096`; Vec indexing panics when the
masked index is outside the vector, modelled by `none`. -/
def write (cpu : CPU) (address value : Nat) : Option CPU :=
  let idx := address % 4096
  if idx < cpu.ram.length then some { cpu with ram := cpu.ram.set idx value }
  else none

/-- `CPU::read` (cpu.rs lines 248-250): `self.ram[(address & 0xFFF) as usize]`.
The `% 256` reflects the `u8` type of the ram cells. -/
def read (cpu : CPU) (address : Nat) : Option Nat :=
  (cpu.ram.get? (address % 4096)).map (· % 256)

/-- `CPU::push` (cpu.rs lines 220-229): increment sp (wrapping u8), then
store the 16-bit value big-endian at 0x100 + sp*2. -/
def push (cpu : CPU) (value : Nat) : Option CPU :=
  let cpu := { cpu with sp := (cpu.sp + 1) % 256 }
  let address := 0x100 + cpu.sp * 2
  (write cpu address (value / 256 % 256)).bind fun cpu =>
    write cpu (address + 1) (value % 256)

/-- `CPU::pop` (cpu.rs lines 231-242): read two bytes big-endian at
0x100 + sp*2, then decrement sp (wrapping u8). -/
def pop (cpu : CPU) : Option (Nat × CPU) :=
  let address := 0x100 + cpu.sp * 2
  (read cpu address).bind fun hi =>
    (read cpu (address + 1)).bind fun lo =>
      some (hi * 256 + lo, { cpu with sp := (cpu.sp + 256 - 1) % 256 })

/-- `CPU::read_next` (cpu.rs lines 252-258): read the byte at pc and
advance pc by 1 (wrapping u16). -/
def read_next (cpu : CPU) : Option (Nat × CPU) :=
  (read cpu cpu.pc).map fun r => (r, { cpu with pc := (cpu.pc + 1) % 65536 })

/-- Register read `self.v[k]`; the `% 256` reflects the `u8` element type. -/
def getV (cpu : CPU) (k : Nat) : Nat := cpu.v.getD k 0 % 256

/-- Register write `self.v[k] = value` (k is always a nibble in the source,
so the index is in range for the 16-element register file). -/
def setV (cpu : CPU) (k value : Nat) : CPU := { cpu with v := cpu.v.set k value }

/-- `Opcode::as_u12` (cpu.rs lines 28-31): `(lo as u16) | ((hi & 0xF) << 8)`;
with lo a byte the bitwise or is addition of disjoint ranges. -/
def asU12 (hi lo : Nat) : Nat := hi % 16 * 256 + lo % 256

/-- `Opcode::as_u8` (cpu.rs lines 33-36): the raw low byte. -/
def asU8 (lo : Nat) : Nat := lo % 256

/-- Advance pc over one instruction: `self.pc = self.pc.wrapping_add(2)`. -/
def skipPC (cpu : CPU) : CPU := { cpu with pc := (cpu.pc + 2) % 65536 }

/-- One screen store `self.screen[idx] = p`, which panics when idx is out
of range (Vec indexing). -/
def screenSet (sc : List Pixel) (idx : Nat) (p : Pixel) : Option (List Pixel) :=
  if idx < sc.length then some (sc.set idx p) else none

/-- Inner clear loop `for x in 0..64 { self.screen[offY + x] = Default }`
(cpu.rs lines 336-338 and 346-348). -/
def clearRow (sc : List Pixel) (offY : Nat) : Option (List Pixel) :=
  (List.range 64).foldlM (fun sc x => screenSet sc (offY + x) default) sc

/-- The clear loops of CLS and HRCLS (cpu.rs lines 332-351):
`for y in 0..rows { for x in 0..64 { self.screen[y*64 + x] = Default } }`
with rows = 32 for CLS and rows = 64 for HRCLS. -/
def clearRegion (rows : Nat) (sc : List Pixel) : Option (List Pixel) :=
  (List.range rows).foldlM (fun sc y => clearRow sc (y * 64)) sc

/-- Bit `(byte >> (7 - j)) & 1` of a sprite row byte (cpu.rs line 533). -/
def spriteBit (byteVal j : Nat) : Nat := byteVal / 2 ^ (7 - j) % 2

/-- Body of the inner DRW loop over j = 0..7 (cpu.rs lines 522-547),
threading the screen and the accumulated collision flag.  The pixel access
`&mut self.screen[offset]` panics when offset is out of range. -/
def drawPixel (byteVal x sy : Nat) (acc : List Pixel × Nat) (j : Nat) :
    Option (List Pixel × Nat) :=
  let sx := (x + j) % 64
  let offset := sy * 64 + sx
  match acc.1.get? offset with
  | none => none
  | some px =>
    let wasLit := px.lit
    let bit := spriteBit byteVal j
    let lit := ((if wasLit then 1 else 0) ^^^ bit) != 0
    let px : Pixel :=
      { lit := lit
        phase := if lit then 1 else if wasLit then 0 else px.phase }
    some (acc.1.set offset px, acc.2 ||| (if wasLit && !lit then 1 else 0))

/-- One DRW row i (cpu.rs lines 519-548): the sprite byte is fetched by
`self.ram[(self.i as usize) + i]` with no 12-bit mask (direct Vec indexing,
panicking when out of range).  The source performs this read once per inner
iteration at the same index; it is hoisted here, which panics at the same
point (before any pixel of the row is written) with the same result. -/
def drawRowStep (iReg x y : Nat) (ram : List Nat) (acc : List Pixel × Nat)
    (i : Nat) : Option (List Pixel × Nat) :=
  let sy := (y + i) % 32
  match ram.get? (iReg + i) with
  | none => none
  | some byteVal => (List.range 8).foldlM (drawPixel (byteVal % 256) x sy) acc

/-- The full DRW double loop (cpu.rs lines 519-548), starting from the
cleared collision flag. -/
def drawLoop (iReg x y n : Nat) (ram : List Nat) (sc : List Pixel) :
    Option (List Pixel × Nat) :=
  (List.range n).foldlM (drawRowStep iReg x y ram) (sc, 0)

/-- The DRW Vx, Vy, u4 arm (cpu.rs lines 508-549): read the origin from the
operand registers, clear VF, run the blit loop, and store the accumulated
collision flag in VF.  The flag is accumulated locally and written once,
which is observationally identical to the per-pixel `|=` of the source
since nothing in the loop reads VF. -/
def drawSprite (cpu : CPU) (xn yn n : Nat) : Option CPU :=
  let x := getV cpu xn
  let y := getV cpu yn
  let cpu := setV cpu 0xF 0
  match drawLoop (cpu.i % 65536) x y n cpu.ram cpu.screen with
  | none => none
  | some (sc, vf) => some (setV { cpu with screen := sc } 0xF vf)

/-- The LD [I], BCD Vx arm (cpu.rs lines 597-606). -/
def bcdOp (cpu : CPU) (x : Nat) : Option CPU :=
  let r := getV cpu x
  let i := cpu.i
  (write cpu i (r / 100)).bind fun cpu =>
    (write cpu (i + 1) (r % 100 / 10)).bind fun cpu =>
      write cpu (i + 2) (r % 10)

/-- The LD [I], Vx bulk store arm (cpu.rs lines 608-618):
`for j in 0..(x+1) { self.write(i + j, self.v[j]) }`. -/
def storeOp (cpu : CPU) (x : Nat) : Option CPU :=
  let i := cpu.i
  (List.range (x + 1)).foldlM (fun cpu j => write cpu (i + j) (getV cpu j)) cpu

/-- The LD Vx, [I] bulk load arm (cpu.rs lines 620-628):
`for j in 0..(x+1) { self.v[j] = self.read(i + j) }`. -/
def loadOp (cpu : CPU) (x : Nat) : Option CPU :=
  let i := cpu.i
  (List.range (x + 1)).foldlM
    (fun cpu j => (read cpu (i + j)).map fun r => setV cpu j r) cpu

/-- Per-step pixel decay (cpu.rs lines 298-303): every pixel with phase
below 1 has its phase incremented by the tick constant. -/
def phaseTick (sc : List Pixel) : List Pixel :=
  sc.map fun p => if p.phase < 1 then { p with phase := p.phase + 1 / 10 } else p

/-- The 60 Hz timer block of `run_next` (cpu.rs lines 305-324): when a
previous timestamp exists, accumulate the elapsed nanoseconds; when the
accumulator reaches one period (16,666,666 ns), subtract one period and
decrement DT and ST, each floored at zero. -/
def tickTimers (cpu : CPU) (elapsedNs : Nat) : CPU :=
  if cpu.timer_instant then
    let e := cpu.timer_elapsed + elapsedNs
    if 16666666 ≤ e then
      { cpu with
        timer_elapsed := e - 16666666
        dt := if 0 < cpu.dt then cpu.dt - 1 else cpu.dt
        st := if 0 < cpu.st then cpu.st - 1 else cpu.st }
    else { cpu with timer_elapsed := e }
  else cpu

/-- External inputs consumed by one step: the wall-clock nanoseconds since
the stored instant, the random byte drawn by RND, and the host keyboard
state queried through the fixed KEYBOARD_MAP table (as a function of the
CHIP-8 key value). -/
structure StepInput where
  elapsedNs : Nat
  rnd : Nat
  keyDown : Nat → Bool

/-- Result of one step: a normal next state, the explicit
`panic!("unknown opcode: ...")` of the catch-all dispatch arm carrying the
two raw instruction bytes (cpu.rs lines 630-632), or an out-of-range Vec
index panic. -/
inductive StepResult where
  | ok (cpu : CPU)
  | unknownOpcode (hi lo : Nat)
  | indexOutOfBounds
deriving DecidableEq, Repr

/-- The dispatch match of `CPU::run_next` (cpu.rs lines 330-633) over the
unpacked nibbles (a, b, c, d) of the opcode bytes (hi, lo), written as a
guard chain in source arm order; b and c play the roles of x and y. -/
def dispatch (cpu : CPU) (inp : StepInput) (a b c d hi lo : Nat) : StepResult :=
  if a = 0x0 then
    if b = 0x0 ∧ c = 0xE ∧ d = 0x0 then
      match clearRegion 32 cpu.screen with
      | some sc => .ok { cpu with screen := sc }
      | none => .indexOutOfBounds
    else if b = 0x2 ∧ c = 0x3 ∧ d = 0x0 then
      match clearRegion 64 cpu.screen with
      | some sc => .ok { cpu with screen := sc }
      | none => .indexOutOfBounds
    else if b = 0x0 ∧ c = 0xE ∧ d = 0xE then
      match pop cpu with
      | some (addr, cpu) => .ok { cpu with pc := addr }
      | none => .indexOutOfBounds
    else .ok cpu
  else if a = 0x1 then .ok { cpu with pc := asU12 hi lo }
  else if a = 0x2 then
    match push cpu cpu.pc with
    | some cpu => .ok { cpu with pc := asU12 hi lo }
    | none => .indexOutOfBounds
  else if a = 0x3 then .ok (if getV cpu b = asU8 lo then skipPC cpu else cpu)
  else if a = 0x4 then .ok (if getV cpu b ≠ asU8 lo then skipPC cpu else cpu)
  else if a = 0x5 then .ok (if getV cpu b = getV cpu c then skipPC cpu else cpu)
  else if a = 0x6 then .ok (setV cpu b (asU8 lo))
  else if a = 0x7 then .ok (setV cpu b ((getV cpu b + asU8 lo) % 256))
  else if a = 0x8 then
    if d = 0x0 then .ok (setV cpu b (getV cpu c))
    else if d = 0x1 then .ok (setV cpu b (getV cpu b ||| getV cpu c))
    else if d = 0x2 then .ok (setV cpu b (getV cpu b &&& getV cpu c))
    else if d = 0x3 then .ok (setV cpu b (getV cpu b ^^^ getV cpu c))
    else if d = 0x4 then
      let vx := getV cpu b
      let vy := getV cpu c
      let r := vx + vy
      .ok (setV (setV cpu b (r % 256)) 0xF (if 0xFF < r then 1 else 0))
    else if d = 0x5 then
      let vx := getV cpu b
      let vy := getV cpu c
      .ok (setV (setV cpu 0xF (if vy < vx then 1 else 0)) b ((vx + 256 - vy) % 256))
    else if d = 0x6 then
      let cpu := setV cpu 0xF (getV cpu b % 2)
      .ok (setV cpu b (getV cpu b / 2))
    else if d = 0x7 then
      let vx := getV cpu b
      let vy := getV cpu c
      .ok (setV (setV cpu 0xF (if vx < vy then 1 else 0)) b ((vy + 256 - vx) % 256))
    else if d = 0xE then
      let cpu := setV cpu 0xF (getV cpu b / 128)
      .ok (setV cpu b (getV cpu b * 2 % 256))
    else .unknownOpcode hi lo
  else if a = 0x9 then
    if d = 0x0 then .ok (if getV cpu b ≠ getV cpu c then skipPC cpu else cpu)
    else .unknownOpcode hi lo
  else if a = 0xA then .ok { cpu with i := asU12 hi lo }
  else if a = 0xB then .ok { cpu with pc := (asU12 hi lo + getV cpu 0x0) % 65536 }
  else if a = 0xC then .ok (setV cpu b (inp.rnd % 256 &&& asU8 lo))
  else if a = 0xD then
    match drawSprite cpu b c d with
    | some cpu => .ok cpu
    | none => .indexOutOfBounds
  else if a = 0xE then
    if c = 0x9 ∧ d = 0xE then
      if getV cpu b < 16 then .ok (if inp.keyDown (getV cpu b) then skipPC cpu else cpu)
      else .indexOutOfBounds
    else if c = 0xA ∧ d = 0x1 then
      if getV cpu b < 16 then .ok (if inp.keyDown (getV cpu b) then cpu else skipPC cpu)
      else .indexOutOfBounds
    else .unknownOpcode hi lo
  else if a = 0xF then
    if c = 0x0 ∧ d = 0x7 then .ok (setV cpu b (cpu.dt % 256))
    else if c = 0x1 ∧ d = 0x5 then .ok { cpu with dt := getV cpu b }
    else if c = 0x1 ∧ d = 0x8 then .ok { cpu with st := getV cpu b }
    else if c = 0x1 ∧ d = 0xE then .ok { cpu with i := (cpu.i % 65536 + getV cpu b) % 65536 }
    else if c = 0x2 ∧ d = 0x9 then .ok { cpu with i := getV cpu b * 5 % 256 }
    else if c = 0x3 ∧ d = 0x3 then
      match bcdOp cpu b with
      | some cpu => .ok cpu
      | none => .indexOutOfBounds
    else if c = 0x5 ∧ d = 0x5 then
      match storeOp cpu b with
      | some cpu => .ok cpu
      | none => .indexOutOfBounds
    else if c = 0x6 ∧ d = 0x5 then
      match loadOp cpu b with
      | some cpu => .ok cpu
      | none => .indexOutOfBounds
    else .unknownOpcode hi lo
  else .unknownOpcode hi lo

/-- Decode the two opcode bytes into nibbles (`Opcode::unpack`,
cpu.rs lines 23-26) and dispatch. -/
def execOp (cpu : CPU) (inp : StepInput) (hi lo : Nat) : StepResult :=
  dispatch cpu inp (hi / 16) (hi % 16) (lo / 16) (lo % 16) hi lo

/-- `CPU::run_next` (cpu.rs lines 297-637): phase decay, timer update,
fetch of the two big-endian opcode bytes, dispatch, and the refresh of the
timer reference timestamp at the end of a completed step. -/
def run_next (cpu : CPU) (inp : StepInput) : StepResult :=
  let cpu := { cpu with screen := phaseTick cpu.screen }
  let cpu := tickTimers cpu inp.elapsedNs
  match read_next cpu with
  | none => .indexOutOfBounds
  | some (hi, cpu) =>
    match read_next cpu with
    | none => .indexOutOfBounds
    | some (lo, cpu) =>
      match execOp cpu inp hi lo with
      | .ok cpu => .ok { cpu with timer_instant := true }
      | r => r

/-- A fixed step input used by concrete evaluations. -/
def inp0 : StepInput := ⟨0, 0, fun _ => false⟩

/-- Register k of the state carried by a successful step result (an
arbitrary sentinel value otherwise). -/
def vOf (r : StepResult) (k : Nat) : Nat :=
  match r with
  | .ok cpu => getV cpu k
  | _ => 1000

/-- The u8 sprite row byte read by DRW for row i: the ram cell at the
unmasked index I + i (statement-side abbreviation of the source read). -/
def rowByte (ram : List Nat) (iReg i : Nat) : Nat := ram.getD (iReg + i) 0 % 256

/-- Inverse of the toroidal row map of DRW: for a screen offset `off`,
the sprite row i with (y + i) % 32 = off / 64, taken in 0..31 (ghost
definition used to state the draw characterisation). -/
def rowIdx (y off : Nat) : Nat := (off / 64 + 32 - y % 32) % 32

/-- Inverse of the toroidal column map of DRW: for a screen offset `off`,
the sprite column j with (x + j) % 64 = off % 64, taken in 0..63 (ghost
definition used to state the draw characterisation). -/
def colIdx (x off : Nat) : Nat := (off % 64 + 64 - x % 64) % 64

/- ### Generic helper lemmas -/

theorem foldlM_option_append {α β : Type} (f : β → α → Option β)
    (l₁ l₂ : List α) (init : β) :
    (l₁ ++ l₂).foldlM f init = (l₁.foldlM f init).bind fun b => l₂.foldlM f b := by
  induction l₁ generalizing init with
  | nil => simp
  | cons x xs ih =>
    simp only [List.cons_append, List.foldlM_cons]
    cases f init x with
    | none => simp
    | some b => simp [ih]

theorem foldlM_option_none_head {α β : Type} (f : β → α → Option β)
    (x : α) (xs : List α) (init : β) (h : f init x = none) :
    (x :: xs).foldlM f init = none := by
  simp [List.foldlM_cons, h]

/- ### Memory bus lemmas -/

theorem write_eq_some (cpu : CPU) (a value : Nat) (h : cpu.ram.length = 4096) :
    write cpu a value = some { cpu with ram := cpu.ram.set (a % 4096) value } := by
  have : a % 4096 < cpu.ram.length := by rw [h]; exact Nat.mod_lt _ (by norm_num)
  simp [write, this]

theorem read_eq_some (cpu : CPU) (a : Nat) (h : cpu.ram.length = 4096) :
    ∃ r, read cpu a = some r ∧ r < 256 := by
  have hlt : a % 4096 < cpu.ram.length := by rw [h]; exact Nat.mod_lt _ (by norm_num)
  rcases hget : cpu.ram[a % 4096]? with _ | b
  · rw [List.getElem?_eq_none_iff] at hget; omega
  · refine ⟨b % 256, ?_, Nat.mod_lt _ (by norm_num)⟩
    simp [read, List.get?_eq_getElem?, hget]

/- ### Register file lemmas -/

theorem getV_setV_self (cpu : CPU) (k value : Nat) (h : k < cpu.v.length) :
    getV (setV cpu k value) k = value % 256 := by
  simp [getV, setV, List.getD_eq_getElem?_getD, List.getElem?_set_eq_of_lt _ h]

theorem getV_setV_ne (cpu : CPU) (k j value : Nat) (h : k ≠ j) :
    getV (setV cpu k value) j = getV cpu j := by
  simp [getV, setV, List.getD_eq_getElem?_getD, List.getElem?_set_ne h]

theorem getV_lt (cpu : CPU) (k : Nat) : getV cpu k < 256 :=
  Nat.mod_lt _ (by norm_num)

/- ### Timer subsystem (claim C9) -/

/-- C9: on each step, when the accumulated elapsed time reaches or exceeds
the 60 Hz period of 16,666,666 ns, one period is subtracted from the
accumulator and DT and ST each decrement by exactly 1, floored at zero
(for a Nat counter, `x - 1` is exactly the floored decrement); when the
threshold is not reached the counters are untouched; and the very first
step after a reset performs no decrement because `reset` clears the timer
reference, and `tickTimers` is the identity when no reference exists. -/
theorem timer_cadence (cpu : CPU) (e : Nat) :
    (reset cpu).timer_instant = false ∧
    (cpu.timer_instant = false → tickTimers cpu e = cpu) ∧
    (cpu.timer_instant = true → 16666666 ≤ cpu.timer_elapsed + e →
      (tickTimers cpu e).timer_elapsed = cpu.timer_elapsed + e - 16666666 ∧
      (tickTimers cpu e).dt = cpu.dt - 1 ∧
      (tickTimers cpu e).st = cpu.st - 1) ∧
    (cpu.timer_instant = true → cpu.timer_elapsed + e < 16666666 →
      (tickTimers cpu e).timer_elapsed = cpu.timer_elapsed + e ∧
      (tickTimers cpu e).dt = cpu.dt ∧
      (tickTimers cpu e).st = cpu.st) := by
  refine ⟨rfl, fun h => by simp [tickTimers, h], fun h hge => ?_, fun h hlt => ?_⟩
  · have ht : tickTimers cpu e =
        { cpu with
          timer_elapsed := cpu.timer_elapsed + e - 16666666
          dt := if 0 < cpu.dt then cpu.dt - 1 else cpu.dt
          st := if 0 < cpu.st then cpu.st - 1 else cpu.st } := by
      simp only [tickTimers, h, if_true]
      rw [if_pos hge]
    rw [ht]
    refine ⟨rfl, ?_, ?_⟩ <;> dsimp only <;> split <;> omega
  · simp [tickTimers, h, Nat.not_le.mpr hlt]

/-- Concrete instance of C9: with a stored timestamp, 10,000,000 ns
accumulated and 7,000,000 ns newly elapsed, one period is consumed and
both timers step down by one (ST stays at zero). -/
theorem timer_cadence_witness :
    (tickTimers ⟨[], [], [], [], 0, 0, 0, 10000000, true, 5, 0⟩ 7000000).timer_elapsed = 333334 ∧
    (tickTimers ⟨[], [], [], [], 0, 0, 0, 10000000, true, 5, 0⟩ 7000000).dt = 4 ∧
    (tickTimers ⟨[], [], [], [], 0, 0, 0, 10000000, true, 5, 0⟩ 7000000).st = 0 := by
  have h := (timer_cadence ⟨[], [], [], [], 0, 0, 0, 10000000, true, 5, 0⟩ 7000000).2.2.1
    rfl (by norm_num)
  simpa using h

/- ### Clear loops (claim C4) -/

theorem clearCols_none (sc : List Pixel) (offY : Nat) (h : sc.length ≤ offY) :
    clearRow sc offY = none := by
  have h64 : List.range 64 = 0 :: List.map Nat.succ (List.range 63) := by
    rw [List.range_succ_eq_map]
  rw [clearRow, h64]
  apply foldlM_option_none_head
  simp [screenSet]
  omega

theorem clearCols_some (m : Nat) :
    ∀ (sc : List Pixel) (offY : Nat), offY + m ≤ sc.length →
      ∃ sc', (List.range m).foldlM (fun sc x => screenSet sc (offY + x) default) sc
          = some sc' ∧ sc'.length = sc.length := by
  induction m with
  | zero => exact fun sc offY _ => ⟨sc, rfl, rfl⟩
  | succ m ih =>
    intro sc offY h
    obtain ⟨sc', hfold, hlen⟩ := ih sc offY (by omega)
    rw [List.range_succ, foldlM_option_append, hfold]
    have hidx : offY + m < sc'.length := by omega
    refine ⟨sc'.set (offY + m) default, ?_, by simp [hlen]⟩
    simp [screenSet, hidx]

theorem clearRow_some (sc : List Pixel) (offY : Nat) (h : offY + 64 ≤ sc.length) :
    ∃ sc', clearRow sc offY = some sc' ∧ sc'.length = sc.length :=
  clearCols_some 64 sc offY h

theorem clearRegion_some (m : Nat) (hm : m ≤ 32) :
    ∀ sc : List Pixel, sc.length = 2048 →
      ∃ sc', clearRegion m sc = some sc' ∧ sc'.length = 2048 := by
  induction m with
  | zero => exact fun sc h => ⟨sc, rfl, h⟩
  | succ m ih =>
    intro sc h
    obtain ⟨sc', hfold, hlen⟩ := ih (by omega) sc h
    obtain ⟨sc'', hrow, hlen'⟩ := clearRow_some sc' (m * 64) (by omega)
    refine ⟨sc'', ?_, by omega⟩
    rw [clearRegion, List.range_succ, foldlM_option_append]
    rw [clearRegion] at hfold
    simp [hfold, hrow]

theorem clearRegion_33_plus_none (k : Nat) :
    ∀ sc : List Pixel, sc.length = 2048 → clearRegion (33 + k) sc = none := by
  induction k with
  | zero =>
    intro sc h
    obtain ⟨sc', hfold, hlen⟩ := clearRegion_some 32 le_rfl sc h
    have h33 : (33 : Nat) = 32 + 1 := rfl
    rw [h33, clearRegion, List.range_succ, foldlM_option_append]
    rw [clearRegion] at hfold
    simp [hfold, clearCols_none sc' (32 * 64) (by omega)]
  | succ k ih =>
    intro sc h
    have hsucc : 33 + (k + 1) = (33 + k) + 1 := rfl
    rw [hsucc, clearRegion, List.range_succ, foldlM_option_append]
    have := ih sc h
    rw [clearRegion] at this
    simp [this]

/-- C4: the high-resolution clear opcode 0x0230 iterates a 64x64 region
(4096 screen indices) while `reset` sizes the backing display grid at
64x32 = 2048 pixels, so the iteration indexes past the grid bounds and the
step dies with an index-out-of-range fault once row 32 is reached. -/
theorem hrcls_exceeds_grid (cpu : CPU) (inp : StepInput) (hi lo : Nat)
    (h : cpu.screen.length = 64 * 32) :
    (reset cpu).screen.length = 64 * 32 ∧
    dispatch cpu inp 0x0 0x2 0x3 0x0 hi lo = .indexOutOfBounds := by
  constructor
  · show (List.replicate (64 * 32) (default : Pixel)).length = 64 * 32
    simp only [List.length_replicate]
  · have h64 : clearRegion 64 cpu.screen = none := by
      have h33 : (64 : Nat) = 33 + 31 := by norm_num
      rw [h33]
      exact clearRegion_33_plus_none 31 cpu.screen (by simpa using h)
    have harm : dispatch cpu inp 0x0 0x2 0x3 0x0 hi lo =
        match clearRegion 64 cpu.screen with
        | some sc => .ok { cpu with screen := sc }
        | none => .indexOutOfBounds := rfl
    rw [harm, h64]

/-- Concrete instance of C4: on a freshly sized 64x32 screen the
high-resolution clear faults. -/
theorem hrcls_exceeds_grid_witness :
    dispatch ⟨[], List.replicate (64 * 32) default, [], [], 0, 0, 0, 0, false, 0, 0⟩
      inp0 0x0 0x2 0x3 0x0 0x02 0x30 = .indexOutOfBounds :=
  (hrcls_exceeds_grid _ inp0 0x02 0x30 (by simp only [List.length_replicate])).2

/- ### Call stack (claim C6) -/

/-- Evaluation of `pop` once the two stack bytes at the stack-pointer
address are known. -/
theorem pop_eq (cpu : CPU) (hi lo : Nat)
    (hhi : cpu.ram.get? ((0x100 + cpu.sp * 2) % 4096) = some hi)
    (hlo : cpu.ram.get? ((0x100 + cpu.sp * 2 + 1) % 4096) = some lo) :
    pop cpu = some (hi % 256 * 256 + lo % 256,
      { cpu with sp := (cpu.sp + 256 - 1) % 256 }) := by
  simp only [pop, read, hhi, hlo, Option.map_some', Option.some_bind]

/-- C6: for every 16-bit value and every starting state with a 4096-byte
RAM and an 8-bit stack pointer, a push immediately followed by a pop (with
no intervening stack pointer mutation) returns exactly the value pushed
and restores the stack pointer to its original value. -/
theorem push_pop_roundtrip (cpu : CPU) (value : Nat)
    (hram : cpu.ram.length = 4096) (hsp : cpu.sp < 256) (hv : value < 65536) :
    ∃ cpu₁ r cpu₂, push cpu value = some cpu₁ ∧ pop cpu₁ = some (r, cpu₂) ∧
      r = value ∧ cpu₂.sp = cpu.sp := by
  have hsplt : (cpu.sp + 1) % 256 < 256 := Nat.mod_lt _ (by norm_num)
  have haddr : (0x100 + (cpu.sp + 1) % 256 * 2) % 4096 = 0x100 + (cpu.sp + 1) % 256 * 2 :=
    Nat.mod_eq_of_lt (by omega)
  have haddr1 : (0x100 + (cpu.sp + 1) % 256 * 2 + 1) % 4096
      = 0x100 + (cpu.sp + 1) % 256 * 2 + 1 :=
    Nat.mod_eq_of_lt (by omega)
  have h1 : push cpu value =
      (write { cpu with sp := (cpu.sp + 1) % 256 } (0x100 + (cpu.sp + 1) % 256 * 2)
        (value / 256 % 256)).bind
        (fun c => write c (0x100 + (cpu.sp + 1) % 256 * 2 + 1) (value % 256)) := rfl
  simp only [write_eq_some, List.length_set, hram, Option.some_bind] at h1
  refine ⟨_, value / 256 % 256 % 256 * 256 + value % 256 % 256, _, h1, pop_eq _ _ _ ?_ ?_, ?_, ?_⟩
  · show ((cpu.ram.set ((0x100 + (cpu.sp + 1) % 256 * 2) % 4096) (value / 256 % 256)).set
        ((0x100 + (cpu.sp + 1) % 256 * 2 + 1) % 4096) (value % 256)).get?
        ((0x100 + (cpu.sp + 1) % 256 * 2) % 4096) = _
    rw [haddr, haddr1, List.get?_eq_getElem?, List.getElem?_set_ne (by omega),
      List.getElem?_set_eq_of_lt _ (by rw [hram]; omega)]
  · show ((cpu.ram.set ((0x100 + (cpu.sp + 1) % 256 * 2) % 4096) (value / 256 % 256)).set
        ((0x100 + (cpu.sp + 1) % 256 * 2 + 1) % 4096) (value % 256)).get?
        ((0x100 + (cpu.sp + 1) % 256 * 2 + 1) % 4096) = _
    rw [haddr, haddr1, List.get?_eq_getElem?,
      List.getElem?_set_eq_of_lt _ (by rw [List.length_set, hram]; omega)]
  · omega
  · show ((cpu.sp + 1) % 256 + 256 - 1) % 256 = cpu.sp
    omega

/-- Concrete instance of C6: pushing 0x1234 onto a zeroed 4 KiB RAM with
stack pointer 0 and popping returns 0x1234 and stack pointer 0. -/
theorem push_pop_roundtrip_witness :
    ∃ cpu₁ r cpu₂,
      push ⟨List.replicate 4096 0, [], [], [], 0, 0, 0, 0, false, 0, 0⟩ 0x1234 = some cpu₁ ∧
      pop cpu₁ = some (r, cpu₂) ∧ r = 0x1234 ∧
      cpu₂.sp = (⟨List.replicate 4096 0, [], [], [], 0, 0, 0, 0, false, 0, 0⟩ : CPU).sp :=
  push_pop_roundtrip _ 0x1234 (by simp only [List.length_replicate]) (by norm_num) (by norm_num)

/- ### Bulk register store/load loops (claims C1 and C10) -/

theorem storeFold_some (base : Nat) (l : List Nat) :
    ∀ cpu : CPU, cpu.ram.length = 4096 →
      ∃ cpu', l.foldlM (fun c j => write c (base + j) (getV c j)) cpu = some cpu' ∧
        cpu'.ram.length = 4096 ∧ cpu'.v = cpu.v ∧ cpu'.i = cpu.i := by
  induction l with
  | nil => exact fun cpu h => ⟨cpu, rfl, h, rfl, rfl⟩
  | cons j js ih =>
    intro cpu h
    obtain ⟨cpu', hfold, hlen, hv, hi⟩ := ih
      { cpu with ram := cpu.ram.set ((base + j) % 4096) (getV cpu j) }
      (by simp only [List.length_set]; exact h)
    refine ⟨cpu', ?_, hlen, hv, hi⟩
    simp only [List.foldlM_cons]
    rw [write_eq_some _ _ _ h]
    exact hfold

theorem loadFold_some (base : Nat) (l : List Nat) :
    ∀ cpu : CPU, cpu.ram.length = 4096 →
      ∃ cpu', l.foldlM (fun c j => (read c (base + j)).map fun r => setV c j r) cpu
          = some cpu' ∧
        cpu'.ram = cpu.ram ∧ cpu'.i = cpu.i ∧
        ∀ k, k ∉ l → cpu'.v.getD k 0 = cpu.v.getD k 0 := by
  induction l with
  | nil => exact fun cpu h => ⟨cpu, rfl, rfl, rfl, fun _ _ => rfl⟩
  | cons j js ih =>
    intro cpu h
    obtain ⟨r, hr, _⟩ := read_eq_some cpu (base + j) h
    obtain ⟨cpu', hfold, hram, hi, hv⟩ := ih (setV cpu j r) h
    refine ⟨cpu', ?_, hram, hi, ?_⟩
    · simp only [List.foldlM_cons, hr, Option.map_some', Option.some_bind]
      exact hfold
    · intro k hk
      simp only [List.mem_cons, not_or] at hk
      rw [hv k hk.2]
      show (cpu.v.set j r).getD k 0 = cpu.v.getD k 0
      rw [List.getD_eq_getElem?_getD, List.getD_eq_getElem?_getD,
        List.getElem?_set_ne (fun hjk => hk.1 hjk.symm)]

/-- C1 amended: every memory access performed through the bus helpers via
the index register I is masked to the low 12 bits before indexing, so the
BCD writes and the bulk register store/load always stay inside the
4096-byte RAM for every value of I; the sprite-draw byte reads, however,
index RAM directly without the mask and can fall outside it (see the
counterexample theorem). -/
theorem bus_masked_ops_stay_in_ram (cpu : CPU) (x : Nat)
    (hram : cpu.ram.length = 4096) :
    (∃ cpu', bcdOp cpu x = some cpu' ∧ cpu'.ram.length = 4096) ∧
    (∃ cpu', storeOp cpu x = some cpu' ∧ cpu'.ram.length = 4096) ∧
    (∃ cpu', loadOp cpu x = some cpu' ∧ cpu'.ram.length = 4096) := by
  refine ⟨?_, ?_, ?_⟩
  · simp only [bcdOp, write_eq_some, List.length_set, hram, Option.some_bind]
    exact ⟨_, rfl, by simp only [List.length_set]; exact hram⟩
  · obtain ⟨cpu', hfold, hlen, _, _⟩ := storeFold_some cpu.i (List.range (x + 1)) cpu hram
    exact ⟨cpu', hfold, hlen⟩
  · obtain ⟨cpu', hfold, hr, _, _⟩ := loadFold_some cpu.i (List.range (x + 1)) cpu hram
    exact ⟨cpu', hfold, by rw [hr]; exact hram⟩

/-- Concrete instance of the amended C1: with I = 0xFFF (so that I + 2
overruns the RAM size), the three BCD writes still land inside RAM. -/
theorem bus_masked_ops_stay_in_ram_witness :
    ∃ cpu', bcdOp ⟨List.replicate 4096 0, [], [], List.replicate 16 7,
      0xFFF, 0, 0, 0, false, 0, 0⟩ 3 = some cpu' ∧ cpu'.ram.length = 4096 :=
  (bus_masked_ops_stay_in_ram _ 3 (by simp only [List.length_replicate])).1

/-- The DRW arm faults as soon as its blit loop faults. -/
theorem drawSprite_none_of_loop_none (cpu : CPU) (xn yn n : Nat)
    (h : drawLoop (cpu.i % 65536) (getV cpu xn) (getV cpu yn) n cpu.ram cpu.screen
      = none) :
    drawSprite cpu xn yn n = none := by
  simp only [drawSprite, setV]
  rw [h]

/-- C1 counterexample: with I = 0x1000 (reachable from I = 0xFFF through
ADD I, Vx) a one-row sprite draw reads ram[0x1000], one past the 4096-byte
RAM: the DRW sprite byte read `self.ram[(self.i as usize) + i]` is not
masked to 12 bits, so the access leaves RAM and the interpreter dies with
an index panic instead of wrapping. -/
theorem draw_read_unmasked_counterexample :
    drawSprite ⟨List.replicate 4096 0, List.replicate 2048 default, [],
      List.replicate 16 0, 0x1000, 0, 0, 0, false, 0, 0⟩ 0 1 1 = none := by
  have hnone : (List.replicate 4096 (0 : Nat)).get? (4096 + 0) = none := by
    rw [List.get?_eq_getElem?, List.getElem?_eq_none_iff, List.length_replicate]
  have h1 : drawLoop 4096 0 0 1 (List.replicate 4096 0) (List.replicate 2048 default)
      = none := by
    have hr1 : List.range 1 = [0] := rfl
    simp only [drawLoop, hr1, List.foldlM_cons, List.foldlM_nil,
      drawRowStep, hnone, Option.none_bind]
    rfl
  exact drawSprite_none_of_loop_none _ 0 1 1 h1

/-- C10: for every register index x, the bulk register store leaves I and
every register unchanged, and the bulk register load leaves I unchanged
and every register above x unchanged. -/
theorem bulk_store_load_frame (cpu : CPU) (x : Nat)
    (hram : cpu.ram.length = 4096) :
    (∃ cpu', storeOp cpu x = some cpu' ∧ cpu'.i = cpu.i ∧ cpu'.v = cpu.v) ∧
    (∃ cpu', loadOp cpu x = some cpu' ∧ cpu'.i = cpu.i ∧
      ∀ j, x < j → getV cpu' j = getV cpu j) := by
  constructor
  · obtain ⟨cpu', hfold, _, hv, hi⟩ := storeFold_some cpu.i (List.range (x + 1)) cpu hram
    exact ⟨cpu', hfold, hi, hv⟩
  · obtain ⟨cpu', hfold, _, hi, hv⟩ := loadFold_some cpu.i (List.range (x + 1)) cpu hram
    refine ⟨cpu', hfold, hi, fun j hj => ?_⟩
    have hnotin : j ∉ List.range (x + 1) := by
      simp only [List.mem_range]
      omega
    simp only [getV, hv j hnotin]

/-- Concrete instance of C10: storing and loading V0..V3 with I = 0x300
preserves I, the store preserves all registers, and the load preserves
V4..VF. -/
theorem bulk_store_load_frame_witness :
    (∃ cpu', storeOp ⟨List.replicate 4096 0, [], [], List.replicate 16 9,
        0x300, 0, 0, 0, false, 0, 0⟩ 3 = some cpu' ∧
      cpu'.i = 0x300 ∧ cpu'.v = List.replicate 16 9) ∧
    (∃ cpu', loadOp ⟨List.replicate 4096 0, [], [], List.replicate 16 9,
        0x300, 0, 0, 0, false, 0, 0⟩ 3 = some cpu' ∧
      cpu'.i = 0x300 ∧
      ∀ j, 3 < j → getV cpu' j
        = getV ⟨List.replicate 4096 0, [], [], List.replicate 16 9,
            0x300, 0, 0, 0, false, 0, 0⟩ j) :=
  bulk_store_load_frame _ 3 (by simp only [List.length_replicate])

/- ### Dispatch fault behaviour (claim C2) -/

/-- C2 amended: every fetched instruction whose nibble pattern matches
none of the dispatch arms halts the run as an unrecoverable fault
reporting the two raw instruction bytes (first nibble 0x8 with low nibble
outside 0x0-0x7 and 0xE, first nibble 0x9 with low nibble other than 0x0,
first nibble 0xE with low byte other than 0x9E / 0xA1, first nibble 0xF
with low byte outside the handled set); however, instructions with first
nibble 0x0 other than 00E0, 0230 and 00EE are silently ignored as no-ops
rather than faulting, even though they belong to none of the supported
operation families. -/
theorem unmatched_opcode_faults (cpu : CPU) (inp : StepInput) (a b c d hi lo : Nat)
    (hd : d < 16) :
    (((a = 0x8 ∧ d ≠ 0x0 ∧ d ≠ 0x1 ∧ d ≠ 0x2 ∧ d ≠ 0x3 ∧ d ≠ 0x4 ∧ d ≠ 0x5 ∧
        d ≠ 0x6 ∧ d ≠ 0x7 ∧ d ≠ 0xE) ∨
      (a = 0x9 ∧ d ≠ 0x0) ∨
      (a = 0xE ∧ ¬(c = 0x9 ∧ d = 0xE) ∧ ¬(c = 0xA ∧ d = 0x1)) ∨
      (a = 0xF ∧ ¬(c = 0x0 ∧ d = 0x7) ∧ ¬(c = 0x1 ∧ d = 0x5) ∧ ¬(c = 0x1 ∧ d = 0x8) ∧
        ¬(c = 0x1 ∧ d = 0xE) ∧ ¬(c = 0x2 ∧ d = 0x9) ∧ ¬(c = 0x3 ∧ d = 0x3) ∧
        ¬(c = 0x5 ∧ d = 0x5) ∧ ¬(c = 0x6 ∧ d = 0x5)) →
      dispatch cpu inp a b c d hi lo = .unknownOpcode hi lo)) ∧
    ((a = 0x0 ∧ ¬(b = 0x0 ∧ c = 0xE ∧ d = 0x0) ∧ ¬(b = 0x2 ∧ c = 0x3 ∧ d = 0x0) ∧
      ¬(b = 0x0 ∧ c = 0xE ∧ d = 0xE)) →
      dispatch cpu inp a b c d hi lo = .ok cpu) := by
  constructor
  · rintro (⟨ha, h⟩ | ⟨ha, h⟩ | ⟨ha, h9E, hA1⟩ | ⟨ha, hf⟩) <;> subst ha
    · obtain ⟨h0, h1, h2, h3, h4, h5, h6, h7, hE⟩ := h
      interval_cases d <;> first | omega | rfl
    · interval_cases d <;> first | omega | rfl
    · have he : dispatch cpu inp 0xE b c d hi lo =
          (if c = 0x9 ∧ d = 0xE then
            (if getV cpu b < 16 then
              .ok (if inp.keyDown (getV cpu b) then skipPC cpu else cpu)
            else .indexOutOfBounds)
          else if c = 0xA ∧ d = 0x1 then
            (if getV cpu b < 16 then
              .ok (if inp.keyDown (getV cpu b) then cpu else skipPC cpu)
            else .indexOutOfBounds)
          else .unknownOpcode hi lo) := rfl
      rw [he, if_neg h9E, if_neg hA1]
    · obtain ⟨h07, h15, h18, h1E, h29, h33, h55, h65⟩ := hf
      have hf2 : dispatch cpu inp 0xF b c d hi lo =
          (if c = 0x0 ∧ d = 0x7 then .ok (setV cpu b (cpu.dt % 256))
          else if c = 0x1 ∧ d = 0x5 then .ok { cpu with dt := getV cpu b }
          else if c = 0x1 ∧ d = 0x8 then .ok { cpu with st := getV cpu b }
          else if c = 0x1 ∧ d = 0xE then
            .ok { cpu with i := (cpu.i % 65536 + getV cpu b) % 65536 }
          else if c = 0x2 ∧ d = 0x9 then .ok { cpu with i := getV cpu b * 5 % 256 }
          else if c = 0x3 ∧ d = 0x3 then
            match bcdOp cpu b with
            | some cpu => .ok cpu
            | none => .indexOutOfBounds
          else if c = 0x5 ∧ d = 0x5 then
            match storeOp cpu b with
            | some cpu => .ok cpu
            | none => .indexOutOfBounds
          else if c = 0x6 ∧ d = 0x5 then
            match loadOp cpu b with
            | some cpu => .ok cpu
            | none => .indexOutOfBounds
          else .unknownOpcode hi lo) := rfl
      rw [hf2, if_neg h07, if_neg h15, if_neg h18, if_neg h1E, if_neg h29, if_neg h33,
        if_neg h55, if_neg h65]
  · rintro ⟨ha, hcls, hhr, hret⟩
    subst ha
    have h0eq : dispatch cpu inp 0x0 b c d hi lo =
        (if b = 0x0 ∧ c = 0xE ∧ d = 0x0 then
          match clearRegion 32 cpu.screen with
          | some sc => .ok { cpu with screen := sc }
          | none => .indexOutOfBounds
        else if b = 0x2 ∧ c = 0x3 ∧ d = 0x0 then
          match clearRegion 64 cpu.screen with
          | some sc => .ok { cpu with screen := sc }
          | none => .indexOutOfBounds
        else if b = 0x0 ∧ c = 0xE ∧ d = 0xE then
          match pop cpu with
          | some (addr, cpu) => .ok { cpu with pc := addr }
          | none => .indexOutOfBounds
        else .ok cpu) := rfl
    rw [h0eq, if_neg hcls, if_neg hhr, if_neg hret]

/-- Concrete instance of the amended C2: opcode 0x8908 (first nibble 0x8,
low nibble 0x8) faults with the raw bytes. -/
theorem unmatched_opcode_faults_witness :
    dispatch ⟨[], [], [], [], 0, 0, 0, 0, false, 0, 0⟩ inp0 0x8 0x9 0x0 0x8 0x89 0x08
      = .unknownOpcode 0x89 0x08 :=
  (unmatched_opcode_faults _ inp0 0x8 0x9 0x0 0x8 0x89 0x08 (by norm_num)).1
    (Or.inl (by norm_num))

/-- C2 counterexample: opcode 0x0123 matches none of the supported
operation families (it is neither 00E0, 0230 nor 00EE), yet the dispatch
treats it as a silent no-op returning the state unchanged instead of
halting with an unrecoverable fault. -/
theorem sys_opcode_ignored_counterexample :
    dispatch ⟨[], [], [], [], 0, 0, 0, 0, false, 0, 0⟩ inp0 0x0 0x1 0x2 0x3 0x01 0x23
      = .ok ⟨[], [], [], [], 0, 0, 0, 0, false, 0, 0⟩ := rfl

/- ### Shift-right semantics (claim C3) -/

/-- C3 amended: for every register index x other than 0xF, the shift-right
instruction 0x8xy6 sets VF to bit 0 of the pre-shift Vx (`Vx % 2`) and
sets Vx to the pre-shift value logically shifted right by one (`Vx / 2`).
For x = 0xF the flag write aliases Vx and happens first, so VF ends up
`(VF % 2) / 2 = 0` rather than bit 0 of the pre-shift value. -/
theorem shr_flag_then_shift (cpu : CPU) (inp : StepInput) (x y hi lo : Nat)
    (hv : cpu.v.length = 16) (hx : x < 16) :
    (x ≠ 0xF → ∃ cpu', dispatch cpu inp 0x8 x y 0x6 hi lo = .ok cpu' ∧
      getV cpu' 0xF = getV cpu x % 2 ∧ getV cpu' x = getV cpu x / 2) ∧
    (x = 0xF → ∃ cpu', dispatch cpu inp 0x8 x y 0x6 hi lo = .ok cpu' ∧
      getV cpu' 0xF = 0) := by
  have heq : dispatch cpu inp 0x8 x y 0x6 hi lo =
      .ok (setV (setV cpu 0xF (getV cpu x % 2)) x
        (getV (setV cpu 0xF (getV cpu x % 2)) x / 2)) := rfl
  have hlen15 : (0xF : Nat) < cpu.v.length := by omega
  constructor
  · intro hxF
    refine ⟨_, heq, ?_, ?_⟩
    · rw [getV_setV_ne _ _ _ _ hxF, getV_setV_self _ _ _ hlen15]
      have := getV_lt cpu x
      omega
    · rw [getV_setV_self _ _ _ (by simp only [setV, List.length_set]; omega),
        getV_setV_ne _ _ _ _ (fun h => hxF h.symm)]
      have := getV_lt cpu x
      omega
  · intro hxF
    subst hxF
    refine ⟨_, heq, ?_⟩
    rw [getV_setV_self _ _ _ (by simpa [setV] using hlen15),
      getV_setV_self _ _ _ hlen15]
    have := getV_lt cpu 0xF
    omega

/-- Concrete instance of the amended C3: with V2 = 6, the instruction
0x8206 leaves VF = 0 (bit 0 of 6) and V2 = 3. -/
theorem shr_flag_then_shift_witness :
    ∃ cpu', dispatch ⟨[], [], [], List.replicate 16 6, 0, 0, 0, 0, false, 0, 0⟩
        inp0 0x8 0x2 0x0 0x6 0x82 0x06 = .ok cpu' ∧
      getV cpu' 0xF
        = getV ⟨[], [], [], List.replicate 16 6, 0, 0, 0, 0, false, 0, 0⟩ 0x2 % 2 ∧
      getV cpu' 0x2
        = getV ⟨[], [], [], List.replicate 16 6, 0, 0, 0, 0, false, 0, 0⟩ 0x2 / 2 :=
  (shr_flag_then_shift _ inp0 0x2 0x0 0x82 0x06
    (by simp only [List.length_replicate]) (by norm_num)).1 (by norm_num)

/-- C3 counterexample: with VF = 3 the claim requires the executed
0x8F06 (x = 0xF) to set VF to bit 0 of the pre-shift VF, which is 1, but
the interpreter leaves VF = 0 because the flag write aliases Vx. -/
theorem shr_claim_counterexample :
    getV ⟨[], [], [], (List.replicate 16 0).set 15 3, 0, 0, 0, 0, false, 0, 0⟩ 0xF % 2 = 1 ∧
    vOf (dispatch ⟨[], [], [], (List.replicate 16 0).set 15 3, 0, 0, 0, 0, false, 0, 0⟩
      inp0 0x8 0xF 0x0 0x6 0x8F 0x06) 0xF = 0 := by
  decide

/- ### Register add semantics (claim C5) -/

/-- C5 amended: for all register values and every register pair with
x other than 0xF, the add instruction 0x8xy4 stores the sum modulo 256 in
Vx and sets VF to 1 exactly when the unwrapped sum exceeds 255 (0 else);
for every x, including x = 0xF, the final VF is the carry flag: when
x = 0xF the wrapped-sum write to Vx is overwritten by the carry flag, so
Vx does not hold the sum modulo 256 in that case. -/
theorem add_regs_semantics (cpu : CPU) (inp : StepInput) (x y hi lo : Nat)
    (hv : cpu.v.length = 16) (hx : x < 16) :
    (x ≠ 0xF → ∃ cpu', dispatch cpu inp 0x8 x y 0x4 hi lo = .ok cpu' ∧
      getV cpu' x = (getV cpu x + getV cpu y) % 256 ∧
      getV cpu' 0xF = if 255 < getV cpu x + getV cpu y then 1 else 0) ∧
    (∃ cpu', dispatch cpu inp 0x8 x y 0x4 hi lo = .ok cpu' ∧
      getV cpu' 0xF = if 255 < getV cpu x + getV cpu y then 1 else 0) := by
  have heq : dispatch cpu inp 0x8 x y 0x4 hi lo =
      .ok (setV (setV cpu x ((getV cpu x + getV cpu y) % 256)) 0xF
        (if 0xFF < getV cpu x + getV cpu y then 1 else 0)) := rfl
  have hflag : getV (setV (setV cpu x ((getV cpu x + getV cpu y) % 256)) 0xF
      (if 0xFF < getV cpu x + getV cpu y then 1 else 0)) 0xF
      = if 255 < getV cpu x + getV cpu y then 1 else 0 := by
    rw [getV_setV_self _ _ _ (by simpa [setV] using show (0xF : Nat) < cpu.v.length by omega)]
    split <;> norm_num
  constructor
  · intro hxF
    refine ⟨_, heq, ?_, hflag⟩
    rw [getV_setV_ne _ _ _ _ (fun h => hxF h.symm), getV_setV_self _ _ _ (by omega)]
    omega
  · exact ⟨_, heq, hflag⟩

/- ### Sprite draw characterisation (claims C7 and C8) -/

theorem spriteBit_le_one (byteVal j : Nat) : spriteBit byteVal j ≤ 1 :=
  Nat.le_of_lt_succ (Nat.mod_lt _ (by norm_num))

theorem or01_le (a b : Nat) (ha : a ≤ 1) (hb : b ≤ 1) : a ||| b ≤ 1 := by
  interval_cases a <;> interval_cases b <;> decide

theorem or01_eq_one (a b : Nat) (ha : a ≤ 1) (hb : b ≤ 1) :
    a ||| b = 1 ↔ a = 1 ∨ b = 1 := by
  interval_cases a <;> interval_cases b <;> decide

theorem lit_xor_eq (w : Bool) (b : Nat) (hb : b ≤ 1) :
    (((if w then 1 else 0) ^^^ b) != 0) = xor w (b == 1) := by
  cases w <;> interval_cases b <;> decide

theorem flag_contrib_eq (w : Bool) (b : Nat) (hb : b ≤ 1) :
    (if w && !(xor w (b == 1)) then 1 else 0)
      = (if w = true ∧ b = 1 then (1 : Nat) else 0) := by
  cases w <;> interval_cases b <;> decide

theorem get?_eq_getD {α : Type} [Inhabited α] (l : List α) (i : Nat)
    (h : i < l.length) : l.get? i = some (l.getD i default) := by
  rw [List.get?_eq_getElem?, List.getD_eq_getElem?_getD]
  rcases hg : l[i]? with _ | a
  · rw [List.getElem?_eq_none_iff] at hg
    omega
  · rfl

theorem getD_set_self {α : Type} [Inhabited α] (l : List α) (i : Nat) (a : α)
    (h : i < l.length) : (l.set i a).getD i default = a := by
  rw [List.getD_eq_getElem?_getD, List.getElem?_set_eq_of_lt _ h]
  rfl

theorem getD_set_ne {α : Type} [Inhabited α] (l : List α) (i j : Nat) (a : α)
    (h : i ≠ j) : (l.set i a).getD j default = l.getD j default := by
  rw [List.getD_eq_getElem?_getD, List.getD_eq_getElem?_getD, List.getElem?_set_ne h]

/-- Pointwise characterisation of the inner DRW column loop: processing
columns 0..m-1 of a row at screen row sy XORs each sprite bit into the
pixel at toroidal column (x + j) % 64 of that row, each column hitting a
distinct offset, and accumulates the collision flag over lit-to-unlit
transitions. -/
theorem drawCols_char (byteVal x sy : Nat) (hsy : sy < 32) :
    ∀ (m : Nat), m ≤ 64 → ∀ (sc : List Pixel) (vf : Nat), sc.length = 2048 → vf ≤ 1 →
      ∃ sc' vf',
        (List.range m).foldlM (drawPixel byteVal x sy) (sc, vf) = some (sc', vf') ∧
        sc'.length = 2048 ∧
        (∀ off, off < 2048 →
          (sc'.getD off default).lit =
            (if off / 64 = sy ∧ colIdx x off < m then
              xor ((sc.getD off default).lit) (spriteBit byteVal (colIdx x off) == 1)
            else (sc.getD off default).lit)) ∧
        vf' ≤ 1 ∧
        (vf' = 1 ↔ vf = 1 ∨ ∃ j, j < m ∧
          (sc.getD (sy * 64 + (x + j) % 64) default).lit = true ∧
          spriteBit byteVal j = 1) := by
  intro m
  induction m with
  | zero =>
    intro _ sc vf hlen hvf
    refine ⟨sc, vf, rfl, hlen, fun off _ => ?_, hvf, ?_⟩
    · rw [if_neg]
      rintro ⟨-, h⟩
      omega
    · constructor
      · exact fun h => Or.inl h
      · rintro (h | ⟨j, hj, -⟩)
        · exact h
        · omega
  | succ m ih =>
    intro hm sc vf hlen hvf
    obtain ⟨sc', vf', hfold, hlen', hchar, hvf', hiff⟩ := ih (by omega) sc vf hlen hvf
    have hxm : (x + m) % 64 < 64 := Nat.mod_lt _ (by norm_num)
    have hoff_lt : sy * 64 + (x + m) % 64 < 2048 := by omega
    have hget : sc'.get? (sy * 64 + (x + m) % 64)
        = some (sc'.getD (sy * 64 + (x + m) % 64) default) :=
      get?_eq_getD _ _ (by omega)
    -- the pixel written by column m was untouched by columns 0..m-1
    have hcol_m : colIdx x (sy * 64 + (x + m) % 64) = m := by
      have h1 : (sy * 64 + (x + m) % 64) % 64 = (x + m) % 64 := by omega
      simp only [colIdx, h1]
      omega
    have hrow_m : (sy * 64 + (x + m) % 64) / 64 = sy := by omega
    have hwas : (sc'.getD (sy * 64 + (x + m) % 64) default).lit
        = (sc.getD (sy * 64 + (x + m) % 64) default).lit := by
      rw [hchar _ hoff_lt, if_neg]
      rintro ⟨-, hlt⟩
      omega
    have hbit : spriteBit byteVal m ≤ 1 := spriteBit_le_one _ _
    have hdp : drawPixel byteVal x sy (sc', vf') m =
        some (sc'.set (sy * 64 + (x + m) % 64)
          { lit := xor ((sc.getD (sy * 64 + (x + m) % 64) default).lit)
              (spriteBit byteVal m == 1)
            phase :=
              if xor ((sc.getD (sy * 64 + (x + m) % 64) default).lit)
                  (spriteBit byteVal m == 1) then 1
              else if (sc.getD (sy * 64 + (x + m) % 64) default).lit then 0
              else (sc'.getD (sy * 64 + (x + m) % 64) default).phase },
          vf' ||| (if (sc.getD (sy * 64 + (x + m) % 64) default).lit = true
            ∧ spriteBit byteVal m = 1 then 1 else 0)) := by
      unfold drawPixel
      dsimp only
      rw [hget]
      dsimp only
      rw [lit_xor_eq _ _ hbit]
      rw [flag_contrib_eq _ _ hbit]
      rw [hwas]
    rw [List.range_succ, foldlM_option_append, hfold]
    simp only [Option.some_bind, List.foldlM_cons, List.foldlM_nil, hdp]
    refine ⟨_, _, rfl, ?_, ?_, ?_, ?_⟩
    · simp only [List.length_set]
      exact hlen'
    · -- pointwise lit characterisation after column m
      intro off hofflt
      by_cases heq : off = sy * 64 + (x + m) % 64
      · subst heq
        have hcond : (sy * 64 + (x + m) % 64) / 64 = sy
            ∧ colIdx x (sy * 64 + (x + m) % 64) < m + 1 := ⟨hrow_m, by omega⟩
        rw [getD_set_self _ _ _ (by omega), if_pos hcond, hcol_m]
      · rw [getD_set_ne _ _ _ _ (fun h => heq h.symm), hchar _ hofflt]
        by_cases hoffrow : off / 64 = sy
        · have hcolne : colIdx x off ≠ m := by
            intro hcol
            apply heq
            have h1 : off % 64 = (x + m) % 64 := by
              simp only [colIdx] at hcol
              omega
            omega
          by_cases hcollt : colIdx x off < m
          · have h1 : off / 64 = sy ∧ colIdx x off < m := ⟨hoffrow, hcollt⟩
            have h2 : off / 64 = sy ∧ colIdx x off < m + 1 := ⟨hoffrow, by omega⟩
            rw [if_pos h1, if_pos h2]
          · have h1 : ¬(off / 64 = sy ∧ colIdx x off < m) := fun h => hcollt h.2
            have h2 : ¬(off / 64 = sy ∧ colIdx x off < m + 1) := by
              rintro ⟨-, hlt⟩
              omega
            rw [if_neg h1, if_neg h2]
        · have h1 : ¬(off / 64 = sy ∧ colIdx x off < m) := fun h => hoffrow h.1
          have h2 : ¬(off / 64 = sy ∧ colIdx x off < m + 1) := fun h => hoffrow h.1
          rw [if_neg h1, if_neg h2]
    · refine or01_le _ _ hvf' ?_
      split <;> omega
    · -- collision flag characterisation after column m
      have hcontrib : (if (sc.getD (sy * 64 + (x + m) % 64) default).lit = true
          ∧ spriteBit byteVal m = 1 then (1 : Nat) else 0) ≤ 1 := by
        split <;> omega
      rw [or01_eq_one _ _ hvf' hcontrib, hiff]
      constructor
      · rintro ((h | ⟨j, hj, hl, hb'⟩) | hone)
        · exact Or.inl h
        · exact Or.inr ⟨j, by omega, hl, hb'⟩
        · refine Or.inr ⟨m, by omega, ?_⟩
          revert hone
          split
          · rename_i hcond
            exact fun _ => ⟨hcond.1, hcond.2⟩
          · intro h0
            omega
      · rintro (h | ⟨j, hj, hl, hb'⟩)
        · exact Or.inl (Or.inl h)
        · by_cases hjm : j < m
          · exact Or.inl (Or.inr ⟨j, hjm, hl, hb'⟩)
          · have : j = m := by omega
            subst this
            refine Or.inr ?_
            rw [if_pos ⟨hl, hb'⟩]

/-- Pointwise characterisation of the full DRW row loop: processing rows
0..m-1 (each row hitting a distinct toroidal screen row (y + i) % 32 of
the 64x32 grid because m ≤ 32) XORs the sprite bits into the grid and
accumulates the collision flag over lit-to-unlit transitions, provided the
unmasked sprite byte reads stay inside RAM. -/
theorem drawRows_char (iReg x y : Nat) (ram : List Nat) (n : Nat) (hn : n ≤ 32)
    (hready : iReg + n ≤ ram.length) :
    ∀ (m : Nat), m ≤ n → ∀ (sc : List Pixel) (vf : Nat), sc.length = 2048 → vf ≤ 1 →
      ∃ sc' vf',
        (List.range m).foldlM (drawRowStep iReg x y ram) (sc, vf) = some (sc', vf') ∧
        sc'.length = 2048 ∧
        (∀ off, off < 2048 →
          (sc'.getD off default).lit =
            (if rowIdx y off < m ∧ colIdx x off < 8 then
              xor ((sc.getD off default).lit)
                (spriteBit (rowByte ram iReg (rowIdx y off)) (colIdx x off) == 1)
            else (sc.getD off default).lit)) ∧
        vf' ≤ 1 ∧
        (vf' = 1 ↔ vf = 1 ∨ ∃ i, i < m ∧ ∃ j, j < 8 ∧
          (sc.getD ((y + i) % 32 * 64 + (x + j) % 64) default).lit = true ∧
          spriteBit (rowByte ram iReg i) j = 1) := by
  intro m
  induction m with
  | zero =>
    intro _ sc vf hlen hvf
    refine ⟨sc, vf, rfl, hlen, fun off _ => ?_, hvf, ?_⟩
    · rw [if_neg]
      rintro ⟨h, -⟩
      omega
    · constructor
      · exact fun h => Or.inl h
      · rintro (h | ⟨i, hi, -⟩)
        · exact h
        · omega
  | succ m ih =>
    intro hm sc vf hlen hvf
    obtain ⟨sc', vf', hfold, hlen', hchar, hvf', hiff⟩ := ih (by omega) sc vf hlen hvf
    have hidx : iReg + m < ram.length := by omega
    have hbyte : ram.get? (iReg + m) = some (ram.getD (iReg + m) 0) := get?_eq_getD _ _ hidx
    have hsy : (y + m) % 32 < 32 := Nat.mod_lt _ (by norm_num)
    obtain ⟨sc'', vf'', hfold8, hlen'', hchar8, hvf'', hiff8⟩ :=
      drawCols_char (ram.getD (iReg + m) 0 % 256) x ((y + m) % 32) hsy 8 (by norm_num)
        sc' vf' hlen' hvf'
    have hrowstep : drawRowStep iReg x y ram (sc', vf') m = some (sc'', vf'') := by
      unfold drawRowStep
      dsimp only
      rw [hbyte]
      exact hfold8
    have huntouched : ∀ j, j < 8 →
        (sc'.getD ((y + m) % 32 * 64 + (x + j) % 64) default).lit
          = (sc.getD ((y + m) % 32 * 64 + (x + j) % 64) default).lit := by
      intro j hj
      have hjlt : (x + j) % 64 < 64 := Nat.mod_lt _ (by norm_num)
      have hoffl : (y + m) % 32 * 64 + (x + j) % 64 < 2048 := by omega
      rw [hchar _ hoffl, if_neg]
      rintro ⟨hr1, -⟩
      have hmm2 : rowIdx y ((y + m) % 32 * 64 + (x + j) % 64) = m := by
        simp only [rowIdx]
        omega
      omega
    rw [List.range_succ, foldlM_option_append, hfold]
    refine ⟨sc'', vf'', ?_, hlen'', ?_, hvf'', ?_⟩
    · show (drawRowStep iReg x y ram (sc', vf') m).bind
        (fun b => List.foldlM (drawRowStep iReg x y ram) b []) = some (sc'', vf'')
      rw [hrowstep]
      rfl
    · intro off hoff
      rw [hchar8 off hoff]
      have hto : off / 64 < 32 := by omega
      by_cases hrow : off / 64 = (y + m) % 32
      · have hri : rowIdx y off = m := by
          simp only [rowIdx]
          omega
        by_cases hcol : colIdx x off < 8
        · have h1 : off / 64 = (y + m) % 32 ∧ colIdx x off < 8 := ⟨hrow, hcol⟩
          rw [if_pos h1, hchar off hoff]
          have h2 : ¬(rowIdx y off < m ∧ colIdx x off < 8) := by
            rintro ⟨hlt, -⟩
            omega
          have h3 : rowIdx y off < m + 1 ∧ colIdx x off < 8 := ⟨by omega, hcol⟩
          rw [if_neg h2, if_pos h3, hri]
          rfl
        · have h1 : ¬(off / 64 = (y + m) % 32 ∧ colIdx x off < 8) := fun h => hcol h.2
          have h2 : ¬(rowIdx y off < m + 1 ∧ colIdx x off < 8) := fun h => hcol h.2
          have h3 : ¬(rowIdx y off < m ∧ colIdx x off < 8) := fun h => hcol h.2
          rw [if_neg h1, hchar off hoff, if_neg h3, if_neg h2]
      · have hri : rowIdx y off ≠ m := by
          simp only [rowIdx]
          intro hcon
          apply hrow
          omega
        have h1 : ¬(off / 64 = (y + m) % 32 ∧ colIdx x off < 8) := fun h => hrow h.1
        rw [if_neg h1, hchar off hoff]
        by_cases hlt : rowIdx y off < m ∧ colIdx x off < 8
        · have h2 : rowIdx y off < m + 1 ∧ colIdx x off < 8 := ⟨by omega, hlt.2⟩
          rw [if_pos hlt, if_pos h2]
        · have h2 : ¬(rowIdx y off < m + 1 ∧ colIdx x off < 8) := by
            rintro ⟨hr1, hc1⟩
            exact hlt ⟨by omega, hc1⟩
          rw [if_neg hlt, if_neg h2]
    · rw [hiff8]
      constructor
      · rintro (hvf1 | ⟨j, hj, hl, hb'⟩)
        · rcases hiff.mp hvf1 with h | ⟨i, hi, j, hj, hl, hb'⟩
          · exact Or.inl h
          · exact Or.inr ⟨i, by omega, j, hj, hl, hb'⟩
        · refine Or.inr ⟨m, by omega, j, hj, ?_, hb'⟩
          rw [← huntouched j hj]
          exact hl
      · rintro (h | ⟨i, hi, j, hj, hl, hb'⟩)
        · exact Or.inl (hiff.mpr (Or.inl h))
        · by_cases him : i < m
          · exact Or.inl (hiff.mpr (Or.inr ⟨i, him, j, hj, hl, hb'⟩))
          · have hieq : i = m := by omega
            subst hieq
            refine Or.inr ⟨j, hj, ?_, hb'⟩
            rw [huntouched j hj]
            exact hl

/-- Full characterisation of the DRW arm: the draw succeeds whenever the
sprite byte reads stay inside RAM, leaves RAM, I, pc and V0..VE unchanged,
XORs the sprite bits into the toroidally addressed pixels, and leaves in
VF exactly the collision flag. -/
theorem drawSprite_char (cpu : CPU) (xn yn n : Nat)
    (hv : cpu.v.length = 16) (hsc : cpu.screen.length = 2048) (hn : n ≤ 32)
    (hready : cpu.i % 65536 + n ≤ cpu.ram.length) :
    ∃ cpu', drawSprite cpu xn yn n = some cpu' ∧
      cpu'.ram = cpu.ram ∧ cpu'.i = cpu.i ∧ cpu'.pc = cpu.pc ∧
      cpu'.screen.length = 2048 ∧ cpu'.v.length = 16 ∧
      (∀ k, k < 15 → getV cpu' k = getV cpu k) ∧
      (∀ off, off < 2048 →
        (cpu'.screen.getD off default).lit =
          (if rowIdx (getV cpu yn) off < n ∧ colIdx (getV cpu xn) off < 8 then
            xor ((cpu.screen.getD off default).lit)
              (spriteBit (rowByte cpu.ram (cpu.i % 65536) (rowIdx (getV cpu yn) off))
                (colIdx (getV cpu xn) off) == 1)
          else (cpu.screen.getD off default).lit)) ∧
      getV cpu' 0xF ≤ 1 ∧
      (getV cpu' 0xF = 1 ↔ ∃ i, i < n ∧ ∃ j, j < 8 ∧
        (cpu.screen.getD ((getV cpu yn + i) % 32 * 64 + (getV cpu xn + j) % 64)
          default).lit = true ∧
        spriteBit (rowByte cpu.ram (cpu.i % 65536) i) j = 1) := by
  obtain ⟨sc', vf', hfold, hlen', hchar, hvf', hiff⟩ :=
    drawRows_char (cpu.i % 65536) (getV cpu xn) (getV cpu yn) cpu.ram n hn hready
      n le_rfl cpu.screen 0 hsc (by omega)
  have hds : drawSprite cpu xn yn n
      = some (setV { setV cpu 0xF 0 with screen := sc' } 0xF vf') := by
    show (match drawLoop ((setV cpu 0xF 0).i % 65536) (getV cpu xn) (getV cpu yn) n
        (setV cpu 0xF 0).ram (setV cpu 0xF 0).screen with
      | none => none
      | some (sc, vf) => some (setV { setV cpu 0xF 0 with screen := sc } 0xF vf))
      = some (setV { setV cpu 0xF 0 with screen := sc' } 0xF vf')
    rw [show drawLoop ((setV cpu 0xF 0).i % 65536) (getV cpu xn) (getV cpu yn) n
        (setV cpu 0xF 0).ram (setV cpu 0xF 0).screen = some (sc', vf') from hfold]
  have hvlen : ({ setV cpu 0xF 0 with screen := sc' } : CPU).v.length = 16 := by
    simp only [setV, List.length_set]
    exact hv
  have hvf15 : getV (setV { setV cpu 0xF 0 with screen := sc' } 0xF vf') 0xF = vf' := by
    rw [getV_setV_self _ _ _ (by omega)]
    omega
  refine ⟨_, hds, rfl, rfl, rfl, hlen', ?_, ?_, ?_, ?_, ?_⟩
  · simp only [setV, List.length_set]
    exact hv
  · intro k hk
    rw [getV_setV_ne _ _ _ _ (show (0xF : Nat) ≠ k by omega)]
    show getV (setV cpu 0xF 0) k = getV cpu k
    rw [getV_setV_ne _ _ _ _ (show (0xF : Nat) ≠ k by omega)]
  · exact hchar
  · rw [hvf15]
    exact hvf'
  · rw [hvf15, hiff]
    constructor
    · rintro (h | h)
      · omega
      · exact h
    · exact fun h => Or.inr h

/-- C8 amended: every draw targets pixel columns modulo 64 and rows modulo
32 (toroidal addressing, never clipping): the pixel at screen offset off
is touched exactly when its inverse toroidal coordinates relative to the
origin registers fall inside the sprite (row index below n, column index
below 8), and only those pixels change.  For the 8x2 sprite drawn at
(60, 30) the columns past 63 wrap back to column 0, but its two rows are
30 and 31, both in range, so no row wraps back to row 0 (a row wrap needs
y + row count to pass 32; see the counterexample theorem). -/
theorem draw_toroidal_wrap (cpu : CPU) (xn yn n : Nat)
    (hv : cpu.v.length = 16) (hsc : cpu.screen.length = 2048) (hn : n ≤ 32)
    (hready : cpu.i % 65536 + n ≤ cpu.ram.length) :
    ∃ cpu', drawSprite cpu xn yn n = some cpu' ∧
      ∀ off, off < 2048 →
        (cpu'.screen.getD off default).lit =
          (if rowIdx (getV cpu yn) off < n ∧ colIdx (getV cpu xn) off < 8 then
            xor ((cpu.screen.getD off default).lit)
              (spriteBit (rowByte cpu.ram (cpu.i % 65536) (rowIdx (getV cpu yn) off))
                (colIdx (getV cpu xn) off) == 1)
          else (cpu.screen.getD off default).lit) := by
  obtain ⟨cpu', hds, _, _, _, _, _, _, hchar, _, _⟩ :=
    drawSprite_char cpu xn yn n hv hsc hn hready
  exact ⟨cpu', hds, hchar⟩

/-- Concrete instance of the amended C8: an 8x2 all-ones sprite drawn at
(60, 30) on a dark screen follows the toroidal characterisation; in
particular its columns 60..67 wrap to 60..63 and 0..3 while its rows stay
at 30 and 31. -/
theorem draw_toroidal_wrap_witness :
    ∃ cpu', drawSprite ⟨List.replicate 4096 255, List.replicate 2048 default, [],
        ((List.replicate 16 0).set 0 60).set 1 30, 0, 0, 0, 0, false, 0, 0⟩ 0 1 2
        = some cpu' ∧
      ∀ off, off < 2048 →
        (cpu'.screen.getD off default).lit =
          (if rowIdx (getV ⟨List.replicate 4096 255, List.replicate 2048 default, [],
              ((List.replicate 16 0).set 0 60).set 1 30, 0, 0, 0, 0, false, 0, 0⟩ 1) off < 2
            ∧ colIdx (getV ⟨List.replicate 4096 255, List.replicate 2048 default, [],
              ((List.replicate 16 0).set 0 60).set 1 30, 0, 0, 0, 0, false, 0, 0⟩ 0) off < 8
          then
            xor (((⟨List.replicate 4096 255, List.replicate 2048 default, [],
                ((List.replicate 16 0).set 0 60).set 1 30, 0, 0, 0, 0, false, 0, 0⟩ :
                CPU).screen.getD off default).lit)
              (spriteBit (rowByte (List.replicate 4096 255) 0
                (rowIdx (getV ⟨List.replicate 4096 255, List.replicate 2048 default, [],
                  ((List.replicate 16 0).set 0 60).set 1 30, 0, 0, 0, 0, false, 0, 0⟩ 1) off))
                (colIdx (getV ⟨List.replicate 4096 255, List.replicate 2048 default, [],
                  ((List.replicate 16 0).set 0 60).set 1 30, 0, 0, 0, 0, false, 0, 0⟩ 0) off)
                == 1)
          else ((⟨List.replicate 4096 255, List.replicate 2048 default, [],
              ((List.replicate 16 0).set 0 60).set 1 30, 0, 0, 0, 0, false, 0, 0⟩ :
              CPU).screen.getD off default).lit) :=
  draw_toroidal_wrap _ 0 1 2
    (by simp only [List.length_set, List.length_replicate])
    (by simp only [List.length_replicate])
    (by norm_num)
    (by simp only [List.length_replicate]; norm_num)

/-- C8 counterexample: the spec asserts that an 8x2 sprite drawn at
(60, 30) wraps rows past 31 back to row 0, but such a sprite occupies only
rows 30 and 31: drawing an all-ones 8x2 sprite at (60, 30) on a dark
screen lights the column-wrapped pixel at row 30, column 0 (offset 1920),
yet every pixel of row 0 (offsets 0..63) stays unlit, so no row wrapped. -/
theorem draw_60_30_row_wrap_counterexample :
    (drawSprite ⟨List.replicate 4096 255, List.replicate 2048 default, [],
        ((List.replicate 16 0).set 0 60).set 1 30, 0, 0, 0, 0, false, 0, 0⟩ 0 1 2).map
      (fun c => (((List.range 64).all fun k => !(c.screen.getD k default).lit),
        (c.screen.getD 1920 default).lit))
      = some (true, true) := by
  decide

/-- C7 amended: drawing the same sprite twice in succession with the same
operand registers (neither of them VF, which the first draw overwrites)
and no intervening clear restores every pixel of the grid to its lit state
before the first draw, and the second draw sets VF to 1 exactly when some
touched pixel whose sprite bit is set was lit after the first draw (a
touched pixel whose sprite bit is 0 never asserts the flag, because the
second blit XORs 0 there and no lit-to-unlit transition occurs; see the
counterexample theorem). -/
theorem draw_twice_restores (cpu : CPU) (xn yn n : Nat)
    (hv : cpu.v.length = 16) (hsc : cpu.screen.length = 2048)
    (hxn : xn < 16) (hyn : yn < 16) (hxnF : xn ≠ 0xF) (hynF : yn ≠ 0xF)
    (hn : n ≤ 32) (hready : cpu.i % 65536 + n ≤ cpu.ram.length) :
    ∃ cpu₁ cpu₂, drawSprite cpu xn yn n = some cpu₁ ∧
      drawSprite cpu₁ xn yn n = some cpu₂ ∧
      (∀ off, off < 2048 →
        (cpu₂.screen.getD off default).lit = (cpu.screen.getD off default).lit) ∧
      (getV cpu₂ 0xF = 1 ↔ ∃ i, i < n ∧ ∃ j, j < 8 ∧
        (cpu₁.screen.getD ((getV cpu yn + i) % 32 * 64 + (getV cpu xn + j) % 64)
          default).lit = true ∧
        spriteBit (rowByte cpu.ram (cpu.i % 65536) i) j = 1) := by
  obtain ⟨cpu₁, hds1, hram1, hi1, _, hsc1, hv1, hpres1, hchar1, _, _⟩ :=
    drawSprite_char cpu xn yn n hv hsc hn hready
  have hx1 : getV cpu₁ xn = getV cpu xn := hpres1 xn (by omega)
  have hy1 : getV cpu₁ yn = getV cpu yn := hpres1 yn (by omega)
  obtain ⟨cpu₂, hds2, hram2, hi2, _, hsc2, hv2, hpres2, hchar2, _, hiff2⟩ :=
    drawSprite_char cpu₁ xn yn n hv1 hsc1 hn (by rw [hi1, hram1]; exact hready)
  rw [hx1, hy1, hi1, hram1] at hchar2 hiff2
  refine ⟨cpu₁, cpu₂, hds1, hds2, ?_, ?_⟩
  · intro off hoff
    rw [hchar2 off hoff, hchar1 off hoff]
    by_cases hcond : rowIdx (getV cpu yn) off < n ∧ colIdx (getV cpu xn) off < 8
    · rw [if_pos hcond, if_pos hcond]
      cases hb : spriteBit (rowByte cpu.ram (cpu.i % 65536) (rowIdx (getV cpu yn) off))
          (colIdx (getV cpu xn) off) == 1 <;>
        cases hl : (cpu.screen.getD off default).lit <;> simp [hb, hl]
    · rw [if_neg hcond, if_neg hcond]
  · exact hiff2

/-- Concrete instance of the amended C7: drawing the one-row sprite 0x80
twice at the origin over a screen whose pixel (0, 0) is lit restores every
pixel to its prior lit state, and the flag of the second draw is
characterised by the bit-set pixels lit after the first draw. -/
theorem draw_twice_restores_witness :
    ∃ cpu₁ cpu₂, drawSprite ⟨[0x80], (List.replicate 2048 default).set 0 ⟨true, 1⟩, [],
        List.replicate 16 0, 0, 0, 0, 0, false, 0, 0⟩ 0 1 1 = some cpu₁ ∧
      drawSprite cpu₁ 0 1 1 = some cpu₂ ∧
      (∀ off, off < 2048 →
        (cpu₂.screen.getD off default).lit =
          (((⟨[0x80], (List.replicate 2048 default).set 0 ⟨true, 1⟩, [],
            List.replicate 16 0, 0, 0, 0, 0, false, 0, 0⟩ : CPU).screen.getD off
              default).lit)) ∧
      (getV cpu₂ 0xF = 1 ↔ ∃ i, i < 1 ∧ ∃ j, j < 8 ∧
        (cpu₁.screen.getD ((getV ⟨[0x80], (List.replicate 2048 default).set 0 ⟨true, 1⟩,
            [], List.replicate 16 0, 0, 0, 0, 0, false, 0, 0⟩ 1 + i) % 32 * 64 +
          (getV ⟨[0x80], (List.replicate 2048 default).set 0 ⟨true, 1⟩, [],
            List.replicate 16 0, 0, 0, 0, 0, false, 0, 0⟩ 0 + j) % 64) default).lit = true ∧
        spriteBit (rowByte [0x80] 0 i) j = 1) :=
  draw_twice_restores _ 0 1 1
    (by simp only [List.length_replicate])
    (by simp only [List.length_set, List.length_replicate])
    (by norm_num) (by norm_num) (by norm_num) (by norm_num) (by norm_num)
    (by norm_num)

/-- C7 counterexample: with the all-zero one-row sprite drawn twice over a
screen whose pixel (0, 0) is lit, that pixel is touched by the draw and is
still lit after the first draw, yet the second draw leaves VF = 0: the
claim that VF is set exactly when some touched pixel was lit after the
first draw fails for touched pixels whose sprite bit is 0. -/
theorem draw_twice_flag_counterexample :
    ((drawSprite ⟨[0x00], (List.replicate 2048 default).set 0 ⟨true, 1⟩, [],
        List.replicate 16 0, 0, 0, 0, 0, false, 0, 0⟩ 0 1 1).bind
      fun c1 => (drawSprite c1 0 1 1).map
        fun c2 => (getV c2 0xF, (c1.screen.getD 0 default).lit))
      = some (0, true) := by
  decide

/-- Concrete instance of the amended C5: with every register 200, the
instruction 0x8124 stores (200 + 200) % 256 = 144 in V1 and sets the
carry flag. -/
theorem add_regs_semantics_witness :
    ∃ cpu', dispatch ⟨[], [], [], List.replicate 16 200, 0, 0, 0, 0, false, 0, 0⟩
        inp0 0x8 0x1 0x2 0x4 0x81 0x24 = .ok cpu' ∧
      getV cpu' 0x1
        = (getV ⟨[], [], [], List.replicate 16 200, 0, 0, 0, 0, false, 0, 0⟩ 0x1
          + getV ⟨[], [], [], List.replicate 16 200, 0, 0, 0, 0, false, 0, 0⟩ 0x2) % 256 ∧
      getV cpu' 0xF
        = if 255 < getV ⟨[], [], [], List.replicate 16 200, 0, 0, 0, 0, false, 0, 0⟩ 0x1
            + getV ⟨[], [], [], List.replicate 16 200, 0, 0, 0, 0, false, 0, 0⟩ 0x2
          then 1 else 0 :=
  (add_regs_semantics _ inp0 0x1 0x2 0x81 0x24
    (by simp only [List.length_replicate]) (by norm_num)).1 (by norm_num)

/-- C5 counterexample: with VF = 5 and V0 = 10 the claim requires the
executed 0x8F04 (x = 0xF) to leave the sum 15 in Vx = VF, but the
interpreter leaves VF = 0, the carry flag, because the flag write aliases
the destination register. -/
theorem add_claim_counterexample :
    (getV ⟨[], [], [], (List.replicate 16 10).set 15 5, 0, 0, 0, 0, false, 0, 0⟩ 0xF
      + getV ⟨[], [], [], (List.replicate 16 10).set 15 5, 0, 0, 0, 0, false, 0, 0⟩ 0x0) % 256
      = 15 ∧
    vOf (dispatch ⟨[], [], [], (List.replicate 16 10).set 15 5, 0, 0, 0, 0, false, 0, 0⟩
      inp0 0x8 0xF 0x0 0x4 0x8F 0x04) 0xF = 0 := by
  decide

end Chip8
